import Mathlib

/-!
Verification of the rainbow-laser-pointer trail system (src/src/App.tsx).

The TypeScript component keeps all state in refs:
  trailsRef (the trail registry), hueRef (global hue anchor),
  activeTrailsMap (touch identifier -> trail id), activeMouseTrailRef,
  trailIdCounterRef, isDrawingRef.
The per-frame `render` callback fades all points of every trail with at
least two points, draws them, and then removes faded points and dead
trails.  The pointer handlers `handleStart`, `handleMove`, `handleEnd`
mutate the registry and the bindings.

This file embeds that state and those operations shallowly:
numbers are real numbers, the registry is a list of trails, the JS `Map`
is an association list in insertion order, and each handler is a pure
state-transition function.  Canvas drawing has no effect on the modelled
state and is omitted; everything else follows the source line by line.
-/

noncomputable section

namespace Rainbow

/-- MIN_DISTANCE = 1 (App.tsx line 32). -/
def MIN_DISTANCE : ℝ := 1

/-- FADE_SPEED = 0.006 (App.tsx line 33). -/
def FADE_SPEED : ℝ := 0.006

/-- COLOR_PHASE_DISTANCE = 800 (App.tsx line 34). -/
def COLOR_PHASE_DISTANCE : ℝ := 800

/-- A screen position, as produced by `getPos`. -/
structure Pos where
  x : ℝ
  y : ℝ
deriving DecidableEq

/-- The TrailPoint interface: x, y, alpha, hue (App.tsx lines 4-9). -/
structure TrailPoint where
  x : ℝ
  y : ℝ
  alpha : ℝ
  hue : ℝ
deriving Inhabited

/-- The Trail interface (App.tsx lines 12-19). -/
structure Trail where
  points : List TrailPoint
  baseHue : ℝ
  cumulativeDistance : ℝ
  lastPoint : Option Pos
  lastUpdateTime : ℕ
  trailId : ℕ
deriving Inhabited

/-- JavaScript `Math.trunc` on a real argument: rounding toward zero. -/
def jsTrunc (x : ℝ) : ℤ :=
  if 0 ≤ x then ⌊x⌋ else ⌈x⌉

/-- JavaScript's `%` remainder on numbers: `a - b * trunc(a / b)`
(the result carries the sign of the dividend). -/
def jsMod (a b : ℝ) : ℝ :=
  a - b * (jsTrunc (a / b) : ℝ)

/-- An incoming pointer event, reduced to the data the handlers read:
mouse events carry `clientX`/`clientY`; touch events additionally carry
the contact's stable identifier (`e.touches[0]`). -/
inductive PointerEvent where
  | mouse (x y : ℝ)
  | touch (identifier : ℕ) (x y : ℝ)

/-- An event reaching `handleEnd`: a mouse-up, or a touch-end carrying the
identifiers of `e.changedTouches` (the handler may also be called with no
event at all, modelled by `Option` at the call sites). -/
inductive EndEvt where
  | mouseUp
  | touchEnd (ids : List ℕ)

/-- The `getPos` helper (App.tsx lines 151-157). -/
def getPos : PointerEvent → Pos
  | .mouse x y => ⟨x, y⟩
  | .touch _ x y => ⟨x, y⟩

/-- The `getDistance` helper: Euclidean distance (App.tsx lines 159-161). -/
def getDistance (p1 p2 : Pos) : ℝ :=
  Real.sqrt ((p1.x - p2.x) ^ 2 + (p1.y - p2.y) ^ 2)

/-- The `catmullRom` cubic (App.tsx lines 47-53). -/
def catmullRom (t p0 p1 p2 p3 : ℝ) : ℝ :=
  let v0 := (p2 - p0) * 0.5
  let v1 := (p3 - p1) * 0.5
  let t2 := t * t
  let t3 := t * t2
  (2 * p1 - 2 * p2 + v0 + v1) * t3 + (-3 * p1 + 3 * p2 - 2 * v0 - v1) * t2 + v0 * t + p1

/-- The `getInterpolatedPoint` helper (App.tsx lines 57-72).  JavaScript
`points[Math.max(0, i - 1)]` is the truncated natural subtraction `i - 1`;
the other two control indices are clamped with `Math.min` to the last
valid index.  Under a valid anchor index every access is in bounds, so the
`getD` default is never read. -/
def getInterpolatedPoint (points : List TrailPoint) (i : ℕ) (t : ℝ) : TrailPoint :=
  let dflt : TrailPoint := ⟨0, 0, 0, 0⟩
  let p0 := points.getD (i - 1) dflt
  let p1 := points.getD i dflt
  let p2 := points.getD (min (points.length - 1) (i + 1)) dflt
  let p3 := points.getD (min (points.length - 1) (i + 2)) dflt
  let alpha := p1.alpha + (p2.alpha - p1.alpha) * t
  { x := catmullRom t p0.x p1.x p2.x p3.x
    y := catmullRom t p0.y p1.y p2.y p3.y
    hue := catmullRom t p0.hue p1.hue p2.hue p3.hue
    alpha := max 0 (min 1 alpha) }

/-- One point's per-frame fade: `point.alpha = Math.max(point.alpha - FADE_SPEED, 0)`
(App.tsx line 84). -/
def fadePoint (p : TrailPoint) : TrailPoint :=
  { p with alpha := max (p.alpha - FADE_SPEED) 0 }

/-- The fade pass over one trail inside `render` (App.tsx lines 78-85): a
trail with fewer than two points is skipped (`if (points.length < 2) return`). -/
def fadeTrail (tr : Trail) : Trail :=
  if tr.points.length < 2 then tr
  else { tr with points := tr.points.map fadePoint }

/-- The per-trail cleanup map inside `render` (App.tsx lines 132-135):
keep only points with `alpha > 0`. -/
def cleanupTrail (tr : Trail) : Trail :=
  { tr with points := tr.points.filter fun p => decide (p.alpha > 0) }

/-- The state effect of one `render` tick on the registry
(App.tsx lines 74-139): fade every trail that has at least two points,
then drop the points with `alpha ≤ 0`, then drop the trails left with
`points.length ≤ 1`.  Drawing touches only the canvas and is omitted. -/
def render (trails : List Trail) : List Trail :=
  ((trails.map fadeTrail).map cleanupTrail).filter fun tr => decide (tr.points.length > 1)

/-- The whole component state held in refs (App.tsx lines 23-29). -/
structure AppState where
  trails : List Trail
  hue : ℝ
  activeTrailsMap : List (ℕ × ℕ)
  activeMouseTrail : Option ℕ
  trailIdCounter : ℕ
  isDrawing : Bool

/-- The initial ref values (App.tsx lines 23-29). -/
def initialState : AppState :=
  { trails := []
    hue := 0
    activeTrailsMap := []
    activeMouseTrail := none
    trailIdCounter := 0
    isDrawing := false }

/-- `Map.get` on the touch-binding map: the value of the (unique) entry
with the given key. -/
def mapLookup (k : ℕ) (m : List (ℕ × ℕ)) : Option ℕ :=
  (m.find? fun kv => decide (kv.1 = k)).map Prod.snd

/-- `Map.set`: replace the entry with the given key, or append a new one. -/
def mapSet (k v : ℕ) : List (ℕ × ℕ) → List (ℕ × ℕ)
  | [] => [(k, v)]
  | kv :: rest => if kv.1 = k then (k, v) :: rest else kv :: mapSet k v rest

/-- `Map.delete`: remove the entry with the given key. -/
def mapDelete (k : ℕ) : List (ℕ × ℕ) → List (ℕ × ℕ)
  | [] => []
  | kv :: rest => if kv.1 = k then rest else kv :: mapDelete k rest

/-- The `findTrailById` helper (App.tsx lines 164-166). -/
def findTrailById (trailId : ℕ) (trails : List Trail) : Option Trail :=
  trails.find? fun tr => decide (tr.trailId = trailId)

/-- One frame tick, lifted to the whole state. -/
def renderFrame (s : AppState) : AppState :=
  { s with trails := render s.trails }

/-- The `handleStart` handler (App.tsx lines 169-212), taking the event
and the current `Date.now()` value. -/
def handleStart (e : PointerEvent) (now : ℕ) (s : AppState) : AppState :=
  let p := getPos e
  let baseHue := jsMod (s.hue + 30) 360
  let trailId := s.trailIdCounter
  let newTrail : Trail :=
    { points := [⟨p.x, p.y, 1, baseHue⟩, ⟨p.x, p.y, 1, baseHue⟩]
      baseHue := baseHue
      cumulativeDistance := 0
      lastPoint := some p
      lastUpdateTime := now
      trailId := trailId }
  let trails := s.trails ++ [newTrail]
  match e with
  | .touch identifier _ _ =>
      { s with
        hue := baseHue
        trailIdCounter := trailId + 1
        trails := trails
        activeTrailsMap := mapSet identifier trailId s.activeTrailsMap
        isDrawing := true }
  | .mouse _ _ =>
      { s with
        hue := baseHue
        trailIdCounter := trailId + 1
        trails := trails
        activeMouseTrail := some trailId
        isDrawing := true }

/-- `handleMove`'s binding resolution (App.tsx lines 217-228): the trail id
for the event's pointer, if any. -/
def resolvePointer (e : PointerEvent) (s : AppState) : Option ℕ :=
  match e with
  | .touch identifier _ _ => mapLookup identifier s.activeTrailsMap
  | .mouse _ _ => s.activeMouseTrail

/-- Update the first element satisfying the predicate (in-place mutation of
the object returned by `Array.prototype.find`, seen functionally). -/
def updateFirst (p : α → Bool) (f : α → α) : List α → List α
  | [] => []
  | a :: l => if p a then f a :: l else a :: updateFirst p f l

/-- The tail of `handleMove` past the minimum-distance filter
(App.tsx lines 254-269): accumulate the distance, compute the phased hue,
push the new point, record the last position.  The mutation of the object
returned by `findTrailById` is the update of the first registry entry with
this trail id. -/
def moveAppend (s : AppState) (trailId : ℕ) (currentTrail : Trail) (p : Pos)
    (distanceTraveled : ℝ) : AppState :=
  let cum := currentTrail.cumulativeDistance + distanceTraveled
  let colorProgress := jsMod cum COLOR_PHASE_DISTANCE / COLOR_PHASE_DISTANCE
  let currentHue := jsMod (currentTrail.baseHue + colorProgress * 360) 360
  { s with
    trails := updateFirst (fun tr => decide (tr.trailId = trailId))
      (fun _ =>
        { currentTrail with
          points := currentTrail.points ++ [⟨p.x, p.y, 1, currentHue⟩]
          cumulativeDistance := cum
          lastPoint := some p })
      s.trails }

/-- The `handleMove` handler (App.tsx lines 215-270). -/
def handleMove (e : PointerEvent) (s : AppState) : AppState :=
  match resolvePointer e s with
  | none => s
  | some trailId =>
    match findTrailById trailId s.trails with
    | none =>
        let m := s.activeTrailsMap.filter fun kv => decide (kv.2 ≠ trailId)
        { s with
          activeTrailsMap := m
          isDrawing := if m.length = 0 then false else s.isDrawing }
    | some currentTrail =>
        let p := getPos e
        match currentTrail.lastPoint with
        | some lp =>
            if getDistance p lp < MIN_DISTANCE then s
            else moveAppend s trailId currentTrail p (getDistance p lp)
        | none => moveAppend s trailId currentTrail p 0

/-- The `handleEnd` handler (App.tsx lines 273-296); `none` is the call
with no event (mouse leave). -/
def handleEnd (e : Option EndEvt) (s : AppState) : AppState :=
  let s1 :=
    match e with
    | none => { s with activeMouseTrail := none }
    | some (EndEvt.touchEnd ids) =>
        { s with activeTrailsMap := ids.foldl (fun m i => mapDelete i m) s.activeTrailsMap }
    | some EndEvt.mouseUp => { s with activeMouseTrail := none }
  if s1.activeTrailsMap.length = 0 ∧ s1.activeMouseTrail = none then
    { s1 with isDrawing := false }
  else s1

/-- Any single interleaving step of the system: a pointer handler or a
frame tick. -/
inductive Step : AppState → AppState → Prop
  | start (e : PointerEvent) (now : ℕ) (s : AppState) : Step s (handleStart e now s)
  | move (e : PointerEvent) (s : AppState) : Step s (handleMove e s)
  | stop (e : Option EndEvt) (s : AppState) : Step s (handleEnd e s)
  | frame (s : AppState) : Step s (renderFrame s)

/-- A step that cannot create a trail: anything except `handleStart`. -/
inductive NonCreatingStep : AppState → AppState → Prop
  | move (e : PointerEvent) (s : AppState) : NonCreatingStep s (handleMove e s)
  | stop (e : Option EndEvt) (s : AppState) : NonCreatingStep s (handleEnd e s)
  | frame (s : AppState) : NonCreatingStep s (renderFrame s)

/-! ## Helper lemmas -/

theorem jsTrunc_intCast (k : ℤ) : jsTrunc (k : ℝ) = k := by
  unfold jsTrunc
  split
  · exact Int.floor_intCast k
  · exact Int.ceil_intCast k

theorem jsMod_eq (a b : ℝ) (k : ℤ) (hb : 0 < b) (hk : 0 ≤ k)
    (h1 : (k : ℝ) * b ≤ a) (h2 : a < ((k : ℝ) + 1) * b) :
    jsMod a b = a - b * k := by
  have hq1 : (k : ℝ) ≤ a / b := (le_div_iff₀ hb).mpr h1
  have hq2 : a / b < (k : ℝ) + 1 := (div_lt_iff₀ hb).mpr h2
  have h0 : (0 : ℝ) ≤ a / b := le_trans (by exact_mod_cast hk) hq1
  have hfl : ⌊a / b⌋ = k := Int.floor_eq_iff.mpr ⟨hq1, hq2⟩
  unfold jsMod jsTrunc
  rw [if_pos h0, hfl]

theorem jsMod_intCast_mul (k : ℤ) (b : ℝ) (hb : b ≠ 0) :
    jsMod ((k : ℝ) * b) b = 0 := by
  unfold jsMod
  rw [mul_div_assoc, div_self hb, mul_one, jsTrunc_intCast]
  ring

theorem find?_append_some {α : Type} {p : α → Bool} {a : α} {l l' : List α}
    (h : l.find? p = some a) : (l ++ l').find? p = some a := by
  induction l with
  | nil => simp at h
  | cons b l ih =>
      by_cases hb : p b = true
      · rw [List.find?_cons_of_pos _ hb] at h
        rw [List.cons_append, List.find?_cons_of_pos _ hb]
        exact h
      · rw [List.find?_cons_of_neg _ hb] at h
        rw [List.cons_append, List.find?_cons_of_neg _ hb]
        exact ih h

theorem mapLookup_nil (k : ℕ) : mapLookup k [] = none := rfl

theorem mapLookup_cons (kv : ℕ × ℕ) (rest : List (ℕ × ℕ)) (k : ℕ) :
    mapLookup k (kv :: rest) = if kv.1 = k then some kv.2 else mapLookup k rest := by
  unfold mapLookup
  by_cases h : kv.1 = k
  · rw [List.find?_cons_of_pos _ (by simp [h]), if_pos h]
    rfl
  · rw [List.find?_cons_of_neg _ (by simp [h]), if_neg h]

theorem mapLookup_mapSet_of_ne {k k' v : ℕ} (m : List (ℕ × ℕ)) (h : k' ≠ k) :
    mapLookup k' (mapSet k v m) = mapLookup k' m := by
  induction m with
  | nil =>
      simp only [mapSet, mapLookup_cons]
      rw [if_neg (by omega)]
  | cons kv rest ih =>
      by_cases hk : kv.1 = k
      · rw [mapSet, if_pos hk, mapLookup_cons, mapLookup_cons, if_neg (by omega),
          if_neg (by omega)]
      · rw [mapSet, if_neg hk, mapLookup_cons, mapLookup_cons, ih]

theorem mapLookup_mapDelete_of_ne {k k' : ℕ} (m : List (ℕ × ℕ)) (h : k' ≠ k) :
    mapLookup k' (mapDelete k m) = mapLookup k' m := by
  induction m with
  | nil => rfl
  | cons kv rest ih =>
      by_cases hk : kv.1 = k
      · rw [mapDelete, if_pos hk, mapLookup_cons, if_neg (by omega)]
      · rw [mapDelete, if_neg hk, mapLookup_cons, mapLookup_cons, ih]

theorem mapLookup_filterValue_of_ne {k v t : ℕ} {m : List (ℕ × ℕ)}
    (h : mapLookup k m = some v) (hv : v ≠ t) :
    mapLookup k (m.filter fun kv => decide (kv.2 ≠ t)) = some v := by
  induction m with
  | nil => simp [mapLookup_nil] at h
  | cons kv rest ih =>
      rw [mapLookup_cons] at h
      by_cases hk : kv.1 = k
      · rw [if_pos hk] at h
        have hkv2 : kv.2 ≠ t := by
          intro hh
          exact hv (by injection h with h'; omega)
        rw [List.filter_cons_of_pos (by simpa using hkv2), mapLookup_cons, if_pos hk]
        exact h
      · rw [if_neg hk] at h
        by_cases hkv2 : kv.2 = t
        · rw [List.filter_cons_of_neg (by simpa using hkv2)]
          exact ih h
        · rw [List.filter_cons_of_pos (by simpa using hkv2), mapLookup_cons, if_neg hk]
          exact ih h

theorem mapLookup_filterValue_ne (k t : ℕ) (m : List (ℕ × ℕ)) :
    mapLookup k (m.filter fun kv => decide (kv.2 ≠ t)) ≠ some t := by
  intro h
  unfold mapLookup at h
  obtain ⟨kv, hfind, hsnd⟩ := Option.map_eq_some'.mp h
  have hmem := List.mem_of_find?_eq_some hfind
  have := (List.mem_filter.mp hmem).2
  simp only [decide_eq_true_eq] at this
  exact this hsnd

theorem mem_updateFirst {α : Type} {p : α → Bool} {f : α → α} {x : α} {l : List α}
    (h : x ∈ updateFirst p f l) :
    x ∈ l ∨ ∃ a, a ∈ l ∧ p a = true ∧ x = f a := by
  induction l with
  | nil => simp [updateFirst] at h
  | cons b l ih =>
      by_cases hb : p b = true
      · rw [updateFirst, if_pos hb] at h
        rcases List.mem_cons.mp h with h' | h'
        · exact Or.inr ⟨b, List.mem_cons_self b l, hb, h'⟩
        · exact Or.inl (List.mem_cons_of_mem b h')
      · rw [updateFirst, if_neg hb] at h
        rcases List.mem_cons.mp h with h' | h'
        · exact Or.inl (h' ▸ List.mem_cons_self b l)
        · rcases ih h' with h'' | ⟨a, ha, hpa, hfa⟩
          · exact Or.inl (List.mem_cons_of_mem b h'')
          · exact Or.inr ⟨a, List.mem_cons_of_mem b ha, hpa, hfa⟩

theorem findTrailById_updateFirst_of_ne {t1 t2 : ℕ} {nt : Trail} {l : List Trail}
    (h : t2 ≠ t1) (hnt : nt.trailId = t1) :
    findTrailById t2 (updateFirst (fun tr => decide (tr.trailId = t1)) (fun _ => nt) l) =
      findTrailById t2 l := by
  induction l with
  | nil => rfl
  | cons a l ih =>
      by_cases ha : a.trailId = t1
      · rw [updateFirst, if_pos (by simpa using ha)]
        unfold findTrailById
        rw [List.find?_cons_of_neg _ (by simp [hnt]; omega),
          List.find?_cons_of_neg _ (by simp [ha]; omega)]
      · rw [updateFirst, if_neg (by simpa using ha)]
        by_cases ha2 : a.trailId = t2
        · unfold findTrailById
          rw [List.find?_cons_of_pos _ (by simpa using ha2),
            List.find?_cons_of_pos _ (by simpa using ha2)]
        · unfold findTrailById
          rw [List.find?_cons_of_neg _ (by simpa using ha2),
            List.find?_cons_of_neg _ (by simpa using ha2)]
          exact ih

theorem findTrailById_updateFirst_self {t1 : ℕ} {nt c : Trail} {l : List Trail}
    (hsome : findTrailById t1 l = some c) (hnt : nt.trailId = t1) :
    findTrailById t1 (updateFirst (fun tr => decide (tr.trailId = t1)) (fun _ => nt) l) =
      some nt := by
  induction l with
  | nil => simp [findTrailById] at hsome
  | cons a l ih =>
      by_cases ha : a.trailId = t1
      · rw [updateFirst, if_pos (by simpa using ha)]
        unfold findTrailById
        rw [List.find?_cons_of_pos _ (by simpa using hnt)]
      · rw [updateFirst, if_neg (by simpa using ha)]
        unfold findTrailById at hsome ⊢
        rw [List.find?_cons_of_neg _ (by simpa using ha)] at hsome ⊢
        exact ih hsome

theorem findTrailById_some_id {tid : ℕ} {tr : Trail} {l : List Trail}
    (h : findTrailById tid l = some tr) : tr.trailId = tid := by
  have h' : List.find? (fun tr => decide (tr.trailId = tid)) l = some tr := h
  have h'' := List.find?_some h'
  simp only [decide_eq_true_eq] at h''
  exact h''

theorem findTrailById_some_mem {tid : ℕ} {tr : Trail} {l : List Trail}
    (h : findTrailById tid l = some tr) : tr ∈ l := by
  have h' : List.find? (fun tr => decide (tr.trailId = tid)) l = some tr := h
  exact List.mem_of_find?_eq_some h'

theorem findTrailById_moveAppend_self {s : AppState} {tid : ℕ} {tr : Trail} {p : Pos}
    {d : ℝ} (hfind : findTrailById tid s.trails = some tr) :
    findTrailById tid (moveAppend s tid tr p d).trails =
      some { tr with
        points := tr.points ++ [⟨p.x, p.y, 1,
          jsMod (tr.baseHue +
            jsMod (tr.cumulativeDistance + d) COLOR_PHASE_DISTANCE /
              COLOR_PHASE_DISTANCE * 360) 360⟩]
        cumulativeDistance := tr.cumulativeDistance + d
        lastPoint := some p } := by
  have htrid : tr.trailId = tid := findTrailById_some_id hfind
  unfold moveAppend
  dsimp only
  apply findTrailById_updateFirst_self hfind
  exact htrid

theorem findTrailById_moveAppend_of_ne {s : AppState} {t1 t2 : ℕ} {cur : Trail} {p : Pos}
    {d : ℝ} (h : t2 ≠ t1) (hcur : cur.trailId = t1) :
    findTrailById t2 (moveAppend s t1 cur p d).trails = findTrailById t2 s.trails := by
  unfold moveAppend
  dsimp only
  apply findTrailById_updateFirst_of_ne h
  exact hcur

theorem fadeTrail_trailId (tr : Trail) : (fadeTrail tr).trailId = tr.trailId := by
  unfold fadeTrail
  split <;> rfl

theorem cleanupTrail_trailId (tr : Trail) : (cleanupTrail tr).trailId = tr.trailId := rfl

theorem mem_render {tr' : Trail} {trails : List Trail} :
    tr' ∈ render trails ↔
      ∃ tr ∈ trails, tr' = cleanupTrail (fadeTrail tr) ∧ tr'.points.length > 1 := by
  unfold render
  rw [List.mem_filter]
  constructor
  · rintro ⟨hmem, hlen⟩
    rw [List.mem_map] at hmem
    obtain ⟨tf, htf, rfl⟩ := hmem
    rw [List.mem_map] at htf
    obtain ⟨tr, htr, rfl⟩ := htf
    exact ⟨tr, htr, rfl, of_decide_eq_true hlen⟩
  · rintro ⟨tr, htr, rfl, hlen⟩
    refine ⟨?_, decide_eq_true hlen⟩
    rw [List.mem_map]
    exact ⟨fadeTrail tr, List.mem_map_of_mem fadeTrail htr, rfl⟩

theorem handleMove_of_resolve_none {e : PointerEvent} {s : AppState}
    (h : resolvePointer e s = none) : handleMove e s = s := by
  simp [handleMove, h]

theorem handleMove_stale {e : PointerEvent} {s : AppState} {tid : ℕ}
    (hres : resolvePointer e s = some tid)
    (hgone : findTrailById tid s.trails = none) :
    handleMove e s =
      { s with
        activeTrailsMap := s.activeTrailsMap.filter fun kv => decide (kv.2 ≠ tid)
        isDrawing :=
          if (s.activeTrailsMap.filter fun kv => decide (kv.2 ≠ tid)).length = 0 then false
          else s.isDrawing } := by
  simp [handleMove, hres, hgone]

theorem handleMove_near {e : PointerEvent} {s : AppState} {tid : ℕ} {cur : Trail} {lp : Pos}
    (hres : resolvePointer e s = some tid)
    (hfind : findTrailById tid s.trails = some cur)
    (hlp : cur.lastPoint = some lp)
    (hnear : getDistance (getPos e) lp < MIN_DISTANCE) :
    handleMove e s = s := by
  simp [handleMove, hres, hfind, hlp, if_pos hnear]

theorem handleMove_far {e : PointerEvent} {s : AppState} {tid : ℕ} {cur : Trail} {lp : Pos}
    (hres : resolvePointer e s = some tid)
    (hfind : findTrailById tid s.trails = some cur)
    (hlp : cur.lastPoint = some lp)
    (hfar : ¬ getDistance (getPos e) lp < MIN_DISTANCE) :
    handleMove e s = moveAppend s tid cur (getPos e) (getDistance (getPos e) lp) := by
  simp [handleMove, hres, hfind, hlp, if_neg hfar]

theorem handleMove_noLast {e : PointerEvent} {s : AppState} {tid : ℕ} {cur : Trail}
    (hres : resolvePointer e s = some tid)
    (hfind : findTrailById tid s.trails = some cur)
    (hlp : cur.lastPoint = none) :
    handleMove e s = moveAppend s tid cur (getPos e) 0 := by
  simp [handleMove, hres, hfind, hlp]

theorem handleEnd_trails (e : Option EndEvt) (s : AppState) :
    (handleEnd e s).trails = s.trails := by
  rcases e with _ | (_ | ids) <;> (dsimp only [handleEnd]; split <;> rfl)

theorem handleEnd_touchEnd_map (ids : List ℕ) (s : AppState) :
    (handleEnd (some (EndEvt.touchEnd ids)) s).activeTrailsMap =
      ids.foldl (fun m i => mapDelete i m) s.activeTrailsMap := by
  dsimp only [handleEnd]
  split <;> rfl

theorem handleStart_trails (e : PointerEvent) (now : ℕ) (s : AppState) :
    (handleStart e now s).trails = s.trails ++
      [{ points := [⟨(getPos e).x, (getPos e).y, 1, jsMod (s.hue + 30) 360⟩,
                    ⟨(getPos e).x, (getPos e).y, 1, jsMod (s.hue + 30) 360⟩]
         baseHue := jsMod (s.hue + 30) 360
         cumulativeDistance := 0
         lastPoint := some (getPos e)
         lastUpdateTime := now
         trailId := s.trailIdCounter }] := by
  cases e <;> rfl

theorem handleMove_trails_cases (e : PointerEvent) (s : AppState) :
    (handleMove e s).trails = s.trails ∨
    ∃ tid cur p d, findTrailById tid s.trails = some cur ∧
      (handleMove e s).trails =
        updateFirst (fun tr => decide (tr.trailId = tid))
          (fun _ =>
            { cur with
              points := cur.points ++ [⟨p.x, p.y, 1,
                jsMod (cur.baseHue +
                  jsMod (cur.cumulativeDistance + d) COLOR_PHASE_DISTANCE /
                    COLOR_PHASE_DISTANCE * 360) 360⟩]
              cumulativeDistance := cur.cumulativeDistance + d
              lastPoint := some p })
          s.trails := by
  cases hres : resolvePointer e s with
  | none => exact Or.inl (by rw [handleMove_of_resolve_none hres])
  | some tid =>
    cases hfind : findTrailById tid s.trails with
    | none => exact Or.inl (by rw [handleMove_stale hres hfind])
    | some cur =>
      cases hlp : cur.lastPoint with
      | some lp =>
          by_cases hnear : getDistance (getPos e) lp < MIN_DISTANCE
          · exact Or.inl (by rw [handleMove_near hres hfind hlp hnear])
          · refine Or.inr ⟨tid, cur, getPos e, getDistance (getPos e) lp, hfind, ?_⟩
            rw [handleMove_far hres hfind hlp hnear]
            rfl
      | none =>
          refine Or.inr ⟨tid, cur, getPos e, 0, hfind, ?_⟩
          rw [handleMove_noLast hres hfind hlp]
          rfl

theorem findTrailById_none_preserved {tid : ℕ} {s s' : AppState}
    (hstep : NonCreatingStep s s') (h : findTrailById tid s.trails = none) :
    findTrailById tid s'.trails = none := by
  have hmem : ∀ tr ∈ s.trails, ¬ tr.trailId = tid := by
    intro tr htr
    have := List.find?_eq_none.mp h tr htr
    simpa using this
  cases hstep with
  | move e s =>
      rcases handleMove_trails_cases e s with heq | ⟨t1, cur, p, d, hfind, heq⟩
      · rw [heq]; exact h
      · rw [heq]
        apply List.find?_eq_none.mpr
        intro x hx
        rcases mem_updateFirst hx with hx' | ⟨a, _, _, rfl⟩
        · simpa using hmem x hx'
        · have : cur ∈ s.trails := List.mem_of_find?_eq_some hfind
          simpa using hmem cur this
  | stop e s => rw [handleEnd_trails]; exact h
  | frame s =>
      apply List.find?_eq_none.mpr
      intro x hx
      obtain ⟨tr, htr, rfl, -⟩ := mem_render.mp hx
      have : (cleanupTrail (fadeTrail tr)).trailId = tr.trailId := by
        rw [cleanupTrail_trailId, fadeTrail_trailId]
      simpa [this] using hmem tr htr

/-! ## Claims -/

/-- C3: for every point sequence of length ≥ 1 and every valid anchor index
`i`, `getInterpolatedPoint(points, i, 0)` returns exactly `points[i]`'s x, y
position and hue: the Catmull-Rom cubic evaluates to `p1` at `t = 0`, with
control points index-clamped at both sequence ends. -/
theorem c3_interpolation_at_zero (points : List TrailPoint) (i : ℕ)
    (h1 : 1 ≤ points.length) (hi : i < points.length) :
    ((getInterpolatedPoint points i 0).x = (points.get ⟨i, hi⟩).x ∧
     (getInterpolatedPoint points i 0).y = (points.get ⟨i, hi⟩).y ∧
     (getInterpolatedPoint points i 0).hue = (points.get ⟨i, hi⟩).hue) ∧
    ∀ p0 p1 p2 p3 : ℝ, catmullRom 0 p0 p1 p2 p3 = p1 := by
  have hcat : ∀ p0 p1 p2 p3 : ℝ, catmullRom 0 p0 p1 p2 p3 = p1 := by
    intro p0 p1 p2 p3
    unfold catmullRom
    ring
  refine ⟨⟨?_, ?_, ?_⟩, hcat⟩ <;>
    simp [getInterpolatedPoint, hcat, List.getD_eq_getElem?_getD,
      List.getElem?_eq_getElem hi]

/-- C3 witness: a concrete one-point sequence, anchor 0, parameter 0. -/
theorem c3_witness :
    (getInterpolatedPoint [⟨2, 3, 1, 40⟩] 0 0).x = 2 ∧
    (getInterpolatedPoint [⟨2, 3, 1, 40⟩] 0 0).y = 3 ∧
    (getInterpolatedPoint [⟨2, 3, 1, 40⟩] 0 0).hue = 40 := by
  have h := (c3_interpolation_at_zero [⟨2, 3, 1, 40⟩] 0 (by norm_num) (by norm_num)).1
  simpa using h

/-- C4: the alpha returned by `getInterpolatedPoint` is the linear
interpolation between `p1.alpha` and `p2.alpha` clamped into `[0,1]` (not
the cubic used for position and hue), and is therefore always in `[0,1]`. -/
theorem c4_alpha_linear_clamped (points : List TrailPoint) (i : ℕ) (t : ℝ)
    (hi : i < points.length) (ht0 : 0 ≤ t) (ht1 : t < 1) :
    (getInterpolatedPoint points i t).alpha =
      max 0 (min 1 ((points.get ⟨i, hi⟩).alpha +
        ((points.getD (min (points.length - 1) (i + 1)) ⟨0, 0, 0, 0⟩).alpha -
          (points.get ⟨i, hi⟩).alpha) * t)) ∧
    0 ≤ (getInterpolatedPoint points i t).alpha ∧
    (getInterpolatedPoint points i t).alpha ≤ 1 := by
  refine ⟨by simp [getInterpolatedPoint, List.getD_eq_getElem?_getD,
    List.getElem?_eq_getElem hi], ?_, ?_⟩
  · simp only [getInterpolatedPoint]
    exact le_max_left 0 _
  · simp only [getInterpolatedPoint]
    exact max_le (by norm_num) (min_le_left 1 _)

/-- C4 witness: with out-of-range stored alphas (5), the interpolated alpha
at `t = 1/2` is clamped to 1. -/
theorem c4_witness :
    (getInterpolatedPoint [⟨0, 0, 5, 0⟩, ⟨0, 0, 5, 0⟩] 0 (1 / 2)).alpha = 1 ∧
    0 ≤ (getInterpolatedPoint [⟨0, 0, 5, 0⟩, ⟨0, 0, 5, 0⟩] 0 (1 / 2)).alpha ∧
    (getInterpolatedPoint [⟨0, 0, 5, 0⟩, ⟨0, 0, 5, 0⟩] 0 (1 / 2)).alpha ≤ 1 := by
  have h := c4_alpha_linear_clamped [⟨0, 0, 5, 0⟩, ⟨0, 0, 5, 0⟩] 0 (1 / 2)
    (by norm_num) (by norm_num) (by norm_num)
  refine ⟨?_, h.2.1, h.2.2⟩
  rw [h.1]
  norm_num

/-- C7: every pointer-down computes the new trail's base hue as
`(previous global hue anchor + 30) mod 360`, persists it as the new anchor,
creates a trail of exactly two coincident alpha-1 points at the event
position with hue `baseHue`, cumulative distance 0, and the next sequential
identifier (the counter strictly increases), stores it in the registry, and
records the pointer binding (touch map entry, or the mouse slot). -/
theorem c7_start_creates_trail (s : AppState) (now : ℕ) :
    (∀ x y : ℝ,
      handleStart (PointerEvent.mouse x y) now s =
        { s with
          hue := jsMod (s.hue + 30) 360
          trails := s.trails ++
            [{ points := [⟨x, y, 1, jsMod (s.hue + 30) 360⟩,
                          ⟨x, y, 1, jsMod (s.hue + 30) 360⟩]
               baseHue := jsMod (s.hue + 30) 360
               cumulativeDistance := 0
               lastPoint := some ⟨x, y⟩
               lastUpdateTime := now
               trailId := s.trailIdCounter }]
          activeMouseTrail := some s.trailIdCounter
          trailIdCounter := s.trailIdCounter + 1
          isDrawing := true }) ∧
    (∀ (id : ℕ) (x y : ℝ),
      handleStart (PointerEvent.touch id x y) now s =
        { s with
          hue := jsMod (s.hue + 30) 360
          trails := s.trails ++
            [{ points := [⟨x, y, 1, jsMod (s.hue + 30) 360⟩,
                          ⟨x, y, 1, jsMod (s.hue + 30) 360⟩]
               baseHue := jsMod (s.hue + 30) 360
               cumulativeDistance := 0
               lastPoint := some ⟨x, y⟩
               lastUpdateTime := now
               trailId := s.trailIdCounter }]
          activeTrailsMap := mapSet id s.trailIdCounter s.activeTrailsMap
          trailIdCounter := s.trailIdCounter + 1
          isDrawing := true }) := by
  constructor <;> intros <;> rfl

/-- C6: a move bound to an existing trail whose position is strictly within
`MIN_DISTANCE` of the trail's last recorded position is ignored entirely:
the whole state is unchanged. -/
theorem c6_min_distance_filter (s : AppState) (e : PointerEvent) (tid : ℕ)
    (tr : Trail) (lp : Pos)
    (hres : resolvePointer e s = some tid)
    (hfind : findTrailById tid s.trails = some tr)
    (hlp : tr.lastPoint = some lp)
    (hnear : getDistance (getPos e) lp < MIN_DISTANCE) :
    handleMove e s = s :=
  handleMove_near hres hfind hlp hnear

/-- C6 witness: a mouse move to the trail's own last position (distance 0). -/
theorem c6_witness :
    handleMove (PointerEvent.mouse 10 10)
      { trails := [{ points := [⟨10, 10, 1, 30⟩, ⟨10, 10, 1, 30⟩], baseHue := 30,
                     cumulativeDistance := 0, lastPoint := some ⟨10, 10⟩,
                     lastUpdateTime := 0, trailId := 0 }]
        hue := 30, activeTrailsMap := [], activeMouseTrail := some 0,
        trailIdCounter := 1, isDrawing := true } =
      { trails := [{ points := [⟨10, 10, 1, 30⟩, ⟨10, 10, 1, 30⟩], baseHue := 30,
                     cumulativeDistance := 0, lastPoint := some ⟨10, 10⟩,
                     lastUpdateTime := 0, trailId := 0 }]
        hue := 30, activeTrailsMap := [], activeMouseTrail := some 0,
        trailIdCounter := 1, isDrawing := true } := by
  have hd : getDistance (getPos (PointerEvent.mouse 10 10)) ⟨10, 10⟩ < MIN_DISTANCE := by
    show Real.sqrt (((10 : ℝ) - 10) ^ 2 + ((10 : ℝ) - 10) ^ 2) < MIN_DISTANCE
    rw [show ((10 : ℝ) - 10) ^ 2 + ((10 : ℝ) - 10) ^ 2 = 0 by norm_num, Real.sqrt_zero,
      MIN_DISTANCE]
    norm_num
  exact c6_min_distance_filter
    { trails := [{ points := [⟨10, 10, 1, 30⟩, ⟨10, 10, 1, 30⟩], baseHue := 30,
                   cumulativeDistance := 0, lastPoint := some ⟨10, 10⟩,
                   lastUpdateTime := 0, trailId := 0 }]
      hue := 30, activeTrailsMap := [], activeMouseTrail := some 0,
      trailIdCounter := 1, isDrawing := true }
    (PointerEvent.mouse 10 10) 0
    { points := [⟨10, 10, 1, 30⟩, ⟨10, 10, 1, 30⟩], baseHue := 30,
      cumulativeDistance := 0, lastPoint := some ⟨10, 10⟩,
      lastUpdateTime := 0, trailId := 0 }
    ⟨10, 10⟩ rfl rfl rfl hd

/-- C8 counterexample: the claim says a stale binding is cleared "for both
touch and mouse pointers", but a mouse move whose bound trail is gone leaves
the stale mouse slot in place. -/
theorem c8_counterexample :
    findTrailById 5
        ({ trails := [], hue := 0, activeTrailsMap := [], activeMouseTrail := some 5,
           trailIdCounter := 6, isDrawing := true } : AppState).trails = none ∧
    (handleMove (PointerEvent.mouse 0 0)
        { trails := [], hue := 0, activeTrailsMap := [], activeMouseTrail := some 5,
          trailIdCounter := 6, isDrawing := true }).activeMouseTrail = some 5 := by
  exact ⟨rfl, rfl⟩

/-- C8 (amended): a pointer-move whose binding points at a trail no longer
in the registry is non-fatal and mutates no trail; it removes all touch-map
entries bound to that trail id (the mouse slot is left unchanged), and it
clears the drawing flag exactly when the touch map is empty afterwards
(regardless of the mouse slot). -/
theorem c8_amended_stale_move (s : AppState) (e : PointerEvent) (tid : ℕ)
    (hres : resolvePointer e s = some tid)
    (hgone : findTrailById tid s.trails = none) :
    (handleMove e s).trails = s.trails ∧
    (handleMove e s).activeMouseTrail = s.activeMouseTrail ∧
    (handleMove e s).hue = s.hue ∧
    (handleMove e s).trailIdCounter = s.trailIdCounter ∧
    (∀ k v, mapLookup k s.activeTrailsMap = some v → v ≠ tid →
      mapLookup k (handleMove e s).activeTrailsMap = some v) ∧
    (∀ k, mapLookup k (handleMove e s).activeTrailsMap ≠ some tid) ∧
    ((handleMove e s).activeTrailsMap.length = 0 → (handleMove e s).isDrawing = false) ∧
    ((handleMove e s).activeTrailsMap.length ≠ 0 → (handleMove e s).isDrawing = s.isDrawing) := by
  rw [handleMove_stale hres hgone]
  refine ⟨rfl, rfl, rfl, rfl, ?_, ?_, ?_, ?_⟩
  · intro k v h hv
    exact mapLookup_filterValue_of_ne h hv
  · intro k
    exact mapLookup_filterValue_ne k tid _
  · intro h
    dsimp only at h ⊢
    rw [if_pos h]
  · intro h
    dsimp only at h ⊢
    rw [if_neg h]

/-- C8 witness: a touch move with a stale binding removes exactly that
binding, leaves the other touch binding and the registry unchanged. -/
theorem c8_witness :
    (handleMove (PointerEvent.touch 7 0 0)
        { trails := [], hue := 0, activeTrailsMap := [(7, 3), (8, 4)],
          activeMouseTrail := none, trailIdCounter := 9, isDrawing := true }).trails = [] ∧
    mapLookup 8 (handleMove (PointerEvent.touch 7 0 0)
        { trails := [], hue := 0, activeTrailsMap := [(7, 3), (8, 4)],
          activeMouseTrail := none, trailIdCounter := 9, isDrawing := true }).activeTrailsMap =
      some 4 := by
  have h := c8_amended_stale_move
    { trails := [], hue := 0, activeTrailsMap := [(7, 3), (8, 4)],
      activeMouseTrail := none, trailIdCounter := 9, isDrawing := true }
    (PointerEvent.touch 7 0 0) 3 rfl rfl
  exact ⟨h.1, h.2.2.2.2.1 8 4 rfl (by omega)⟩

/-- C5: on an accepted move (distance ≥ MIN_DISTANCE from the trail's last
recorded position), the appended point's hue is
`(baseHue + 360·((cumulativeDistance mod COLOR_PHASE_DISTANCE) / COLOR_PHASE_DISTANCE)) mod 360`
where the cumulative distance already includes the new segment, and whenever
that cumulative distance is an integer multiple of COLOR_PHASE_DISTANCE the
hue is `baseHue mod 360`. -/
theorem c5_move_hue_formula (s : AppState) (e : PointerEvent) (tid : ℕ)
    (tr : Trail) (lp : Pos)
    (hres : resolvePointer e s = some tid)
    (hfind : findTrailById tid s.trails = some tr)
    (hlp : tr.lastPoint = some lp)
    (hfar : MIN_DISTANCE ≤ getDistance (getPos e) lp) :
    findTrailById tid (handleMove e s).trails =
      some { tr with
        points := tr.points ++ [⟨(getPos e).x, (getPos e).y, 1,
          jsMod (tr.baseHue + 360 *
            (jsMod (tr.cumulativeDistance + getDistance (getPos e) lp) COLOR_PHASE_DISTANCE /
              COLOR_PHASE_DISTANCE)) 360⟩]
        cumulativeDistance := tr.cumulativeDistance + getDistance (getPos e) lp
        lastPoint := some (getPos e) } ∧
    ∀ k : ℤ,
      tr.cumulativeDistance + getDistance (getPos e) lp = (k : ℝ) * COLOR_PHASE_DISTANCE →
      jsMod (tr.baseHue + 360 *
        (jsMod (tr.cumulativeDistance + getDistance (getPos e) lp) COLOR_PHASE_DISTANCE /
          COLOR_PHASE_DISTANCE)) 360 = jsMod tr.baseHue 360 := by
  constructor
  · rw [handleMove_far hres hfind hlp (not_lt.mpr hfar),
      findTrailById_moveAppend_self hfind,
      mul_comm (jsMod (tr.cumulativeDistance + getDistance (getPos e) lp)
        COLOR_PHASE_DISTANCE / COLOR_PHASE_DISTANCE) (360 : ℝ)]
  · intro k hk
    rw [hk, jsMod_intCast_mul k COLOR_PHASE_DISTANCE (by norm_num [COLOR_PHASE_DISTANCE])]
    norm_num

/-- C5 witness: pointer-down at (0,0) then a single move to (850,0) with
COLOR_PHASE_DISTANCE = 800 appends a point with hue
(baseHue + 22.5) mod 360 = 52.5 (baseHue = 30) and cumulative distance 850. -/
theorem c5_witness :
    findTrailById 0 (handleMove (PointerEvent.mouse 850 0)
        (handleStart (PointerEvent.mouse 0 0) 0 initialState)).trails =
      some { points := [⟨0, 0, 1, 30⟩, ⟨0, 0, 1, 30⟩, ⟨850, 0, 1, 52.5⟩]
             baseHue := 30
             cumulativeDistance := 850
             lastPoint := some ⟨850, 0⟩
             lastUpdateTime := 0
             trailId := 0 } := by
  have hd : getDistance (getPos (PointerEvent.mouse 850 0)) ⟨0, 0⟩ = 850 := by
    show Real.sqrt (((850 : ℝ) - 0) ^ 2 + ((0 : ℝ) - 0) ^ 2) = 850
    rw [show ((850 : ℝ) - 0) ^ 2 + ((0 : ℝ) - 0) ^ 2 = 850 ^ 2 by norm_num,
      Real.sqrt_sq (by norm_num)]
  have h := c5_move_hue_formula
    (handleStart (PointerEvent.mouse 0 0) 0 initialState)
    (PointerEvent.mouse 850 0) 0
    { points := [⟨0, 0, 1, jsMod (initialState.hue + 30) 360⟩,
                 ⟨0, 0, 1, jsMod (initialState.hue + 30) 360⟩]
      baseHue := jsMod (initialState.hue + 30) 360
      cumulativeDistance := 0
      lastPoint := some ⟨0, 0⟩
      lastUpdateTime := 0
      trailId := 0 }
    ⟨0, 0⟩ rfl rfl rfl (by rw [hd]; show (1 : ℝ) ≤ 850; norm_num)
  rw [h.1]
  have hj30 : jsMod ((0 : ℝ) + 30) 360 = 30 := by
    rw [show ((0 : ℝ) + 30) = 30 by norm_num,
      jsMod_eq 30 360 0 (by norm_num) le_rfl (by norm_num) (by norm_num)]
    norm_num
  have hm850 : jsMod ((850 : ℝ)) 800 = 50 := by
    rw [jsMod_eq 850 800 1 (by norm_num) (by norm_num) (by norm_num) (by norm_num)]
    norm_num
  have hh : jsMod ((105 : ℝ) / 2) 360 = 105 / 2 := by
    rw [jsMod_eq (105 / 2) 360 0 (by norm_num) le_rfl (by norm_num) (by norm_num)]
    norm_num
  simp only [Option.some.injEq, COLOR_PHASE_DISTANCE]
  dsimp only [initialState]
  rw [hj30, hd]
  norm_num [hm850]
  norm_num [hh]
  exact ⟨⟨rfl, rfl⟩, rfl⟩

/-- C9: two simultaneous touch contacts with distinct identifiers are
isolated: a start, move, or end event for one identifier leaves the other
identifier's binding and the other identifier's trail (points, base hue,
cumulative distance) untouched. -/
theorem c9_touch_isolation (s : AppState) (id1 id2 t2 : ℕ) (tr2 : Trail)
    (h12 : id1 ≠ id2)
    (hb2 : mapLookup id2 s.activeTrailsMap = some t2)
    (htr2 : findTrailById t2 s.trails = some tr2)
    (hne : mapLookup id1 s.activeTrailsMap ≠ some t2) :
    (∀ (x y : ℝ) (now : ℕ),
      mapLookup id2 (handleStart (PointerEvent.touch id1 x y) now s).activeTrailsMap = some t2 ∧
      findTrailById t2 (handleStart (PointerEvent.touch id1 x y) now s).trails = some tr2) ∧
    (∀ x y : ℝ,
      mapLookup id2 (handleMove (PointerEvent.touch id1 x y) s).activeTrailsMap = some t2 ∧
      findTrailById t2 (handleMove (PointerEvent.touch id1 x y) s).trails = some tr2) ∧
    (mapLookup id2 (handleEnd (some (EndEvt.touchEnd [id1])) s).activeTrailsMap = some t2 ∧
      findTrailById t2 (handleEnd (some (EndEvt.touchEnd [id1])) s).trails = some tr2) := by
  refine ⟨?_, ?_, ?_⟩
  · intro x y now
    constructor
    · show mapLookup id2 (mapSet id1 s.trailIdCounter s.activeTrailsMap) = some t2
      rw [mapLookup_mapSet_of_ne _ h12.symm]
      exact hb2
    · rw [handleStart_trails]
      exact find?_append_some htr2
  · intro x y
    cases hres : mapLookup id1 s.activeTrailsMap with
    | none =>
        have hres' : resolvePointer (PointerEvent.touch id1 x y) s = none := hres
        rw [handleMove_of_resolve_none hres']
        exact ⟨hb2, htr2⟩
    | some t1 =>
        have hres' : resolvePointer (PointerEvent.touch id1 x y) s = some t1 := hres
        have ht12 : t2 ≠ t1 := by
          intro hh
          exact hne (by rw [hres, hh])
        cases hfind : findTrailById t1 s.trails with
        | none =>
            rw [handleMove_stale hres' hfind]
            exact ⟨mapLookup_filterValue_of_ne hb2 ht12, htr2⟩
        | some cur =>
            have hcur : cur.trailId = t1 := findTrailById_some_id hfind
            cases hlp : cur.lastPoint with
            | some lp =>
                by_cases hnear :
                    getDistance (getPos (PointerEvent.touch id1 x y)) lp < MIN_DISTANCE
                · rw [handleMove_near hres' hfind hlp hnear]
                  exact ⟨hb2, htr2⟩
                · rw [handleMove_far hres' hfind hlp hnear]
                  exact ⟨hb2, (findTrailById_moveAppend_of_ne ht12 hcur).trans htr2⟩
            | none =>
                rw [handleMove_noLast hres' hfind hlp]
                exact ⟨hb2, (findTrailById_moveAppend_of_ne ht12 hcur).trans htr2⟩
  · constructor
    · rw [handleEnd_touchEnd_map]
      show mapLookup id2 (mapDelete id1 s.activeTrailsMap) = some t2
      rw [mapLookup_mapDelete_of_ne _ h12.symm]
      exact hb2
    · rw [handleEnd_trails]
      exact htr2

/-- C9 witness: two touches 1 and 2 bound to trails 0 and 1; ending touch 1
leaves touch 2's binding and trail untouched. -/
theorem c9_witness :
    mapLookup 2 (handleEnd (some (EndEvt.touchEnd [1]))
        { trails := [{ points := [⟨0, 0, 1, 30⟩, ⟨0, 0, 1, 30⟩], baseHue := 30,
                       cumulativeDistance := 0, lastPoint := some ⟨0, 0⟩,
                       lastUpdateTime := 0, trailId := 0 },
                     { points := [⟨5, 5, 1, 60⟩, ⟨5, 5, 1, 60⟩], baseHue := 60,
                       cumulativeDistance := 0, lastPoint := some ⟨5, 5⟩,
                       lastUpdateTime := 0, trailId := 1 }]
          hue := 60, activeTrailsMap := [(1, 0), (2, 1)], activeMouseTrail := none,
          trailIdCounter := 2, isDrawing := true }).activeTrailsMap = some 1 ∧
    findTrailById 1 (handleEnd (some (EndEvt.touchEnd [1]))
        { trails := [{ points := [⟨0, 0, 1, 30⟩, ⟨0, 0, 1, 30⟩], baseHue := 30,
                       cumulativeDistance := 0, lastPoint := some ⟨0, 0⟩,
                       lastUpdateTime := 0, trailId := 0 },
                     { points := [⟨5, 5, 1, 60⟩, ⟨5, 5, 1, 60⟩], baseHue := 60,
                       cumulativeDistance := 0, lastPoint := some ⟨5, 5⟩,
                       lastUpdateTime := 0, trailId := 1 }]
          hue := 60, activeTrailsMap := [(1, 0), (2, 1)], activeMouseTrail := none,
          trailIdCounter := 2, isDrawing := true }).trails =
      some { points := [⟨5, 5, 1, 60⟩, ⟨5, 5, 1, 60⟩], baseHue := 60,
             cumulativeDistance := 0, lastPoint := some ⟨5, 5⟩,
             lastUpdateTime := 0, trailId := 1 } := by
  exact (c9_touch_isolation
    { trails := [{ points := [⟨0, 0, 1, 30⟩, ⟨0, 0, 1, 30⟩], baseHue := 30,
                   cumulativeDistance := 0, lastPoint := some ⟨0, 0⟩,
                   lastUpdateTime := 0, trailId := 0 },
                 { points := [⟨5, 5, 1, 60⟩, ⟨5, 5, 1, 60⟩], baseHue := 60,
                   cumulativeDistance := 0, lastPoint := some ⟨5, 5⟩,
                   lastUpdateTime := 0, trailId := 1 }]
      hue := 60, activeTrailsMap := [(1, 0), (2, 1)], activeMouseTrail := none,
      trailIdCounter := 2, isDrawing := true }
    1 2 1
    { points := [⟨5, 5, 1, 60⟩, ⟨5, 5, 1, 60⟩], baseHue := 60,
      cumulativeDistance := 0, lastPoint := some ⟨5, 5⟩,
      lastUpdateTime := 0, trailId := 1 }
    (by omega) rfl rfl (by intro h; exact absurd h (by decide))).2.2

/-- C2: no step ever increases an existing stored point's alpha, tracked
point by point: after any step, every registered trail is (a) an unchanged
pre-state trail, or (b) a freshly created trail whose points all carry
alpha 1, or (c) a pre-state trail with its point list literally unchanged
except for one appended alpha-1 point, or (d) a pre-state trail whose
points are the pointwise `fadePoint` images of its own points with the
non-positive ones removed; `fadePoint` itself never increases an alpha
that is ≥ 0, and the `[0,1]` alpha range (points are created with
alpha 1) is preserved by every step. -/
theorem c2_alpha_monotone (s s' : AppState) (hstep : Step s s')
    (hinv : ∀ tr ∈ s.trails, ∀ p ∈ tr.points, 0 ≤ p.alpha ∧ p.alpha ≤ 1) :
    (∀ tr' ∈ s'.trails, ∀ p' ∈ tr'.points, 0 ≤ p'.alpha ∧ p'.alpha ≤ 1) ∧
    (∀ p : TrailPoint, 0 ≤ p.alpha → (fadePoint p).alpha ≤ p.alpha) ∧
    (∀ tr' ∈ s'.trails,
      tr' ∈ s.trails ∨
      (∀ p' ∈ tr'.points, p'.alpha = 1) ∨
      (∃ tr ∈ s.trails, ∃ q : TrailPoint,
        tr'.points = tr.points ++ [q] ∧ q.alpha = 1) ∨
      (∃ tr ∈ s.trails,
        tr'.points = (tr.points.map fadePoint).filter fun p => decide (p.alpha > 0))) := by
  have hfs : (0 : ℝ) ≤ FADE_SPEED := by norm_num [FADE_SPEED]
  have hfade : ∀ p : TrailPoint, 0 ≤ p.alpha → (fadePoint p).alpha ≤ p.alpha := by
    intro p hp
    show max (p.alpha - FADE_SPEED) 0 ≤ p.alpha
    refine max_le ?_ hp
    linarith
  have key : ∀ tr' ∈ s'.trails,
      tr' ∈ s.trails ∨
      (∀ p' ∈ tr'.points, p'.alpha = 1) ∨
      (∃ tr ∈ s.trails, ∃ q : TrailPoint,
        tr'.points = tr.points ++ [q] ∧ q.alpha = 1) ∨
      (∃ tr ∈ s.trails,
        tr'.points = (tr.points.map fadePoint).filter fun p => decide (p.alpha > 0)) := by
    cases hstep with
    | start e now s =>
        intro tr' htr'
        rw [handleStart_trails] at htr'
        rcases List.mem_append.mp htr' with h' | h'
        · exact Or.inl h'
        · simp only [List.mem_singleton] at h'
          subst h'
          refine Or.inr (Or.inl ?_)
          intro p' hp'
          simp only [List.mem_cons, List.mem_singleton, List.not_mem_nil, or_false] at hp'
          rcases hp' with rfl | rfl <;> rfl
    | move e s =>
        intro tr' htr'
        rcases handleMove_trails_cases e s with heq | ⟨tid, cur, p, d, hfind, heq⟩
        · rw [heq] at htr'
          exact Or.inl htr'
        · rw [heq] at htr'
          rcases mem_updateFirst htr' with h' | ⟨a, _, _, rfl⟩
          · exact Or.inl h'
          · exact Or.inr (Or.inr (Or.inl
              ⟨cur, findTrailById_some_mem hfind, _, rfl, rfl⟩))
    | stop e s =>
        intro tr' htr'
        rw [handleEnd_trails] at htr'
        exact Or.inl htr'
    | frame s =>
        intro tr' htr'
        obtain ⟨tr, htr, rfl, hlen⟩ := mem_render.mp htr'
        refine Or.inr (Or.inr (Or.inr ⟨tr, htr, ?_⟩))
        by_cases h2 : tr.points.length < 2
        · exfalso
          have h3 : (cleanupTrail (fadeTrail tr)).points.length ≤ tr.points.length := by
            unfold cleanupTrail fadeTrail
            rw [if_pos h2]
            exact List.length_filter_le _ _
          omega
        · show (cleanupTrail (fadeTrail tr)).points = _
          unfold cleanupTrail fadeTrail
          rw [if_neg h2]
  refine ⟨?_, hfade, key⟩
  intro tr' htr' p' hp'
  rcases key tr' htr' with h' | hnew | ⟨tr, htr, q, hpts, hq⟩ | ⟨tr, htr, hpts⟩
  · exact hinv tr' h' p' hp'
  · rw [hnew p' hp']
    norm_num
  · rw [hpts] at hp'
    rcases List.mem_append.mp hp' with h'' | h''
    · exact hinv tr htr p' h''
    · simp only [List.mem_singleton] at h''
      subst h''
      rw [hq]
      norm_num
  · rw [hpts] at hp'
    have hp'' := List.mem_of_mem_filter hp'
    obtain ⟨p, hp, rfl⟩ := List.mem_map.mp hp''
    have h := hinv tr htr p hp
    constructor
    · show (0 : ℝ) ≤ max (p.alpha - FADE_SPEED) 0
      exact le_max_right _ _
    · show max (p.alpha - FADE_SPEED) 0 ≤ 1
      refine max_le ?_ (by norm_num)
      linarith [h.2]

/-- C2 witness: the step creating a trail at (1,2) from the empty initial
state yields a first stored point whose alpha is within `[0,1]`. -/
theorem c2_witness :
    0 ≤ ((handleStart (PointerEvent.mouse 1 2) 0 initialState).trails.headI.points.headI).alpha ∧
    ((handleStart (PointerEvent.mouse 1 2) 0 initialState).trails.headI.points.headI).alpha ≤ 1 := by
  have h := (c2_alpha_monotone initialState _
    (Step.start (PointerEvent.mouse 1 2) 0 initialState) (by simp [initialState])).1
  exact h ((handleStart (PointerEvent.mouse 1 2) 0 initialState).trails.headI)
    (by rw [handleStart_trails]; simp [initialState])
    ((handleStart (PointerEvent.mouse 1 2) 0 initialState).trails.headI.points.headI)
    (by rw [handleStart_trails]; simp [initialState])

theorem twoPoint_step_preserved {s s' : AppState} (hstep : Step s s')
    (ih : ∀ tr ∈ s.trails, 2 ≤ tr.points.length) :
    ∀ tr ∈ s'.trails, 2 ≤ tr.points.length := by
  cases hstep with
  | start e now s =>
      intro tr htr
      rw [handleStart_trails] at htr
      rcases List.mem_append.mp htr with h' | h'
      · exact ih tr h'
      · simp only [List.mem_singleton] at h'
        subst h'
        simp
  | move e s =>
      intro tr htr
      rcases handleMove_trails_cases e s with heq | ⟨tid, cur, p, d, hfind, heq⟩
      · rw [heq] at htr
        exact ih tr htr
      · rw [heq] at htr
        rcases mem_updateFirst htr with h' | ⟨a, _, _, rfl⟩
        · exact ih tr h'
        · have h2 := ih cur (findTrailById_some_mem hfind)
          dsimp only
          rw [List.length_append]
          simp only [List.length_singleton]
          omega
  | stop e s =>
      intro tr htr
      rw [handleEnd_trails] at htr
      exact ih tr htr
  | frame s =>
      intro tr htr
      obtain ⟨tr0, -, rfl, hlen⟩ := mem_render.mp htr
      omega

/-- C10 (implicit): every trail present in the registry of a reachable
state holds at least 2 points: creation inserts two points, moves only
append, and the per-frame cleanup removes any trail left with fewer. -/
theorem c10_registry_trails_have_two_points (s : AppState)
    (hreach : Relation.ReflTransGen Step initialState s) :
    ∀ tr ∈ s.trails, 2 ≤ tr.points.length := by
  induction hreach with
  | refl =>
      intro tr htr
      simp [initialState] at htr
  | tail hsteps hstep ih => exact twoPoint_step_preserved hstep ih

/-- C10 witness: after one pointer-down from the initial state, the single
registered trail has at least two points. -/
theorem c10_witness :
    2 ≤ ((handleStart (PointerEvent.mouse 10 10) 0 initialState).trails.headI).points.length := by
  have h := c10_registry_trails_have_two_points _
    (Relation.ReflTransGen.single (Step.start (PointerEvent.mouse 10 10) 0 initialState))
  exact h ((handleStart (PointerEvent.mouse 10 10) 0 initialState).trails.headI)
    (by rw [handleStart_trails]; simp [initialState])

/-- C1: the per-frame tick fades every point by FADE_SPEED with floor 0,
removes the points left with alpha ≤ 0, and removes the trails left with
at most one point; a trail whose post-cleanup point count is ≤ 1 is absent
from the registry immediately after the tick and after every further
sequence of non-creating steps. -/
theorem c1_frame_cleanup (s s' : AppState) (tid : ℕ)
    (hnodup : (s.trails.map Trail.trailId).Nodup)
    (hsteps : Relation.ReflTransGen NonCreatingStep (renderFrame s) s') :
    (∀ tr' ∈ (renderFrame s).trails,
      tr'.points.length > 1 ∧
      (∀ p' ∈ tr'.points, 0 < p'.alpha) ∧
      ∃ tr ∈ s.trails, tr'.trailId = tr.trailId ∧
        tr'.points =
          (tr.points.map fun p => { p with alpha := max (p.alpha - FADE_SPEED) 0 }).filter
            fun p => decide (p.alpha > 0)) ∧
    (∀ tr ∈ s.trails, tr.trailId = tid →
      (cleanupTrail (fadeTrail tr)).points.length ≤ 1 →
      findTrailById tid s'.trails = none) := by
  constructor
  · intro tr' htr'
    obtain ⟨tr, htr, rfl, hlen⟩ := mem_render.mp htr'
    refine ⟨hlen, ?_, tr, htr, by rw [cleanupTrail_trailId, fadeTrail_trailId], ?_⟩
    · intro p' hp'
      have h := (List.mem_filter.mp hp').2
      simpa using h
    · by_cases h2 : tr.points.length < 2
      · exfalso
        have h3 : (cleanupTrail (fadeTrail tr)).points.length ≤ tr.points.length := by
          unfold cleanupTrail fadeTrail
          rw [if_pos h2]
          exact List.length_filter_le _ _
        omega
      · show (cleanupTrail (fadeTrail tr)).points = _
        unfold cleanupTrail fadeTrail
        rw [if_neg h2]
        rfl
  · intro tr htr htid hdead
    have hbase : findTrailById tid (renderFrame s).trails = none := by
      apply List.find?_eq_none.mpr
      intro x hx
      obtain ⟨tr2, htr2, rfl, hlen2⟩ := mem_render.mp hx
      simp only [decide_eq_true_eq]
      intro hid
      rw [cleanupTrail_trailId, fadeTrail_trailId] at hid
      have heq : tr2 = tr := List.inj_on_of_nodup_map hnodup htr2 htr (by rw [hid, htid])
      subst heq
      omega
    induction hsteps with
    | refl => exact hbase
    | tail hs hstep ih => exact findTrailById_none_preserved hstep ih

/-- C1 witness: a registry with a nearly-faded trail (id 0, alphas 0.004)
and a fresh trail (id 1): after one tick trail 0 is gone from the registry. -/
theorem c1_witness :
    findTrailById 0 (renderFrame
      { trails := [{ points := [⟨0, 0, 0.004, 30⟩, ⟨1, 1, 0.004, 30⟩], baseHue := 30,
                     cumulativeDistance := 0, lastPoint := some ⟨1, 1⟩,
                     lastUpdateTime := 0, trailId := 0 },
                   { points := [⟨5, 5, 1, 60⟩, ⟨6, 6, 1, 60⟩], baseHue := 60,
                     cumulativeDistance := 0, lastPoint := some ⟨6, 6⟩,
                     lastUpdateTime := 0, trailId := 1 }]
        hue := 60, activeTrailsMap := [], activeMouseTrail := none,
        trailIdCounter := 2, isDrawing := false }).trails = none := by
  have hα : max ((0.004 : ℝ) - FADE_SPEED) 0 = 0 := by
    apply max_eq_right
    norm_num [FADE_SPEED]
  have hdec : decide ((0 : ℝ) > 0) = false := decide_eq_false_iff_not.mpr (by norm_num)
  have h := (c1_frame_cleanup
    { trails := [{ points := [⟨0, 0, 0.004, 30⟩, ⟨1, 1, 0.004, 30⟩], baseHue := 30,
                   cumulativeDistance := 0, lastPoint := some ⟨1, 1⟩,
                   lastUpdateTime := 0, trailId := 0 },
                 { points := [⟨5, 5, 1, 60⟩, ⟨6, 6, 1, 60⟩], baseHue := 60,
                   cumulativeDistance := 0, lastPoint := some ⟨6, 6⟩,
                   lastUpdateTime := 0, trailId := 1 }]
      hue := 60, activeTrailsMap := [], activeMouseTrail := none,
      trailIdCounter := 2, isDrawing := false }
    _ 0 (by simp) Relation.ReflTransGen.refl).2
  apply h
    { points := [⟨0, 0, 0.004, 30⟩, ⟨1, 1, 0.004, 30⟩], baseHue := 30,
      cumulativeDistance := 0, lastPoint := some ⟨1, 1⟩,
      lastUpdateTime := 0, trailId := 0 }
    (by simp) rfl
  unfold cleanupTrail fadeTrail
  rw [if_neg (by norm_num)]
  dsimp only [fadePoint, List.map_cons, List.map_nil]
  rw [List.filter_cons_of_neg (by rw [show (({ x := 0, y := 0, alpha := 0.004, hue := 30 } :
      TrailPoint).alpha - FADE_SPEED) = ((0.004 : ℝ) - FADE_SPEED) from rfl] at *; simp [hα, hdec]),
    List.filter_cons_of_neg (by simp [hα, hdec]), List.filter_nil]
  simp

end Rainbow
